import Mathlib

/-!
Verification development for `src/km_diff.c` (kmat_tools): a two-way
streaming merge computing the difference of two sorted k-mer matrices.

Modelling conventions:
* A C string (NUL-free byte sequence) is a `List Char`; the terminating NUL
  of the C representation corresponds to the end of the list.
* A text file, as consumed through `getline`, is a `List (List Char)`: the
  raw lines in order, each still carrying its trailing newline character
  when the underlying file has one.
* The 256-entry lookup tables `isnuc` and `n2kt` are transcribed literally
  from the C source; indexing is by byte value (`Char.toNat`).  In the C
  code `isnuc` is indexed with a possibly signed `char`; we model bytes as
  their values `0..255` (for which the table rows 128..255 are all zero).
* Output written through `fputs`/`fputc` to the selected output file is
  collected as a `List Char`.  Messages printed to `stderr` (the two
  `[info]` lines and the `[warning]` line) are not part of that output; the
  warning is reflected by the `ReadResult.warn` constructor below.
-/

/-- The `isnuc` table of `km_diff.c` (lines 9-26), transcribed literally:
entry `b` is `1` exactly when byte `b` is an accepted key character. -/
def isnucTable : List Nat := [
  0, 0, 0, 0, 0, 0, 0, 0, 0, 0, 0, 0, 0, 0, 0, 0,
  0, 0, 0, 0, 0, 0, 0, 0, 0, 0, 0, 0, 0, 0, 0, 0,
  0, 0, 0, 0, 0, 0, 0, 0, 0, 0, 0, 0, 0, 0, 0, 0,
  0, 0, 0, 0, 0, 0, 0, 0, 0, 0, 0, 0, 0, 0, 0, 0,
  0, 1, 0, 1, 0, 0, 0, 1, 0, 0, 0, 0, 0, 0, 1, 0,
  0, 0, 0, 0, 1, 0, 0, 0, 0, 0, 0, 0, 0, 0, 0, 0,
  0, 1, 0, 1, 0, 0, 0, 1, 0, 0, 0, 0, 0, 0, 1, 0,
  0, 0, 0, 0, 1, 0, 0, 0, 0, 0, 0, 0, 0, 0, 0, 0,
  0, 0, 0, 0, 0, 0, 0, 0, 0, 0, 0, 0, 0, 0, 0, 0,
  0, 0, 0, 0, 0, 0, 0, 0, 0, 0, 0, 0, 0, 0, 0, 0,
  0, 0, 0, 0, 0, 0, 0, 0, 0, 0, 0, 0, 0, 0, 0, 0,
  0, 0, 0, 0, 0, 0, 0, 0, 0, 0, 0, 0, 0, 0, 0, 0,
  0, 0, 0, 0, 0, 0, 0, 0, 0, 0, 0, 0, 0, 0, 0, 0,
  0, 0, 0, 0, 0, 0, 0, 0, 0, 0, 0, 0, 0, 0, 0, 0,
  0, 0, 0, 0, 0, 0, 0, 0, 0, 0, 0, 0, 0, 0, 0, 0,
  0, 0, 0, 0, 0, 0, 0, 0, 0, 0, 0, 0, 0, 0, 0, 0]

/-- `isnuc[b]` for a byte value `b` (out-of-range values, which cannot arise
for a byte, default to `0`). -/
def isnuc (b : Nat) : Nat := isnucTable.getD b 0

/-- The `n2kt` nucleotide-rank table of `km_diff.c` (lines 28-37),
transcribed literally: A and a map to 0, C and c to 1, T and t to 2,
G and g to 3, and every other byte to 1. -/
def n2ktTable : List Int := [
  1, 1, 1, 1, 1, 1, 1, 1, 1, 1, 1, 1, 1, 1, 1, 1, 1, 1, 1, 1, 1, 1, 1, 1, 1, 1, 1, 1, 1, 1, 1, 1,
  1, 1, 1, 1, 1, 1, 1, 1, 1, 1, 1, 1, 1, 1, 1, 1, 1, 1, 1, 1, 1, 1, 1, 1, 1, 1, 1, 1, 1, 1, 1, 1,
  1, 0, 1, 1, 1, 1, 1, 3, 1, 1, 1, 1, 1, 1, 1, 1, 1, 1, 1, 1, 2, 1, 1, 1, 1, 1, 1, 1, 1, 1, 1, 1,
  1, 0, 1, 1, 1, 1, 1, 3, 1, 1, 1, 1, 1, 1, 1, 1, 1, 1, 1, 1, 2, 1, 1, 1, 1, 1, 1, 1, 1, 1, 1, 1,
  1, 1, 1, 1, 1, 1, 1, 1, 1, 1, 1, 1, 1, 1, 1, 1, 1, 1, 1, 1, 1, 1, 1, 1, 1, 1, 1, 1, 1, 1, 1, 1,
  1, 1, 1, 1, 1, 1, 1, 1, 1, 1, 1, 1, 1, 1, 1, 1, 1, 1, 1, 1, 1, 1, 1, 1, 1, 1, 1, 1, 1, 1, 1, 1,
  1, 1, 1, 1, 1, 1, 1, 1, 1, 1, 1, 1, 1, 1, 1, 1, 1, 1, 1, 1, 1, 1, 1, 1, 1, 1, 1, 1, 1, 1, 1, 1,
  1, 1, 1, 1, 1, 1, 1, 1, 1, 1, 1, 1, 1, 1, 1, 1, 1, 1, 1, 1, 1, 1, 1, 1, 1, 1, 1, 1, 1, 1, 1, 1]

/-- `n2kt[b]` for a byte value `b`. -/
def n2kt (b : Nat) : Int := n2ktTable.getD b 1

/-- C `strcmp` on NUL-free byte strings: it walks past the common prefix and
returns the difference of the first differing bytes (the terminating NUL of
the shorter string counting as byte `0`). -/
def strcmp : List Char → List Char → Int
  | [], [] => 0
  | [], y :: _ => 0 - (y.toNat : Int)
  | x :: _, [] => (x.toNat : Int)
  | x :: xs, y :: ys =>
    if x.toNat ≠ 0 ∧ x = y then strcmp xs ys
    else (x.toNat : Int) - (y.toNat : Int)

/-- `ktcmp` of `km_diff.c` (lines 39-42): walks past the common prefix
(stopping at the first string's NUL) and returns the difference of the
`n2kt` ranks at the stopping position. -/
def ktcmp : List Char → List Char → Int
  | [], [] => n2kt 0 - n2kt 0
  | [], y :: _ => n2kt 0 - n2kt y.toNat
  | x :: _, [] => n2kt x.toNat - n2kt 0
  | x :: xs, y :: ys =>
    if x.toNat ≠ 0 ∧ x = y then ktcmp xs ys
    else n2kt x.toNat - n2kt y.toNat

/-- Outcome of one `next_kmer_and_line` call (`km_diff.c` lines 44-64).
`eof` is the silent end-of-stream signal (line shorter than `ksize`,
which also covers end of file); `warn` is the end-of-stream signal that
additionally prints `[warning] input does not seem valid` to stderr
(an invalid character among the first `ksize` ones); `ok` carries the
extracted k-mer and the line with its trailing newline stripped. -/
inductive ReadResult where
  | eof : ReadResult
  | warn : ReadResult
  | ok : List Char → List Char → ReadResult
deriving DecidableEq

/-- Strip a single trailing newline, as `km_diff.c` lines 59-61 do. -/
def stripNewline (l : List Char) : List Char :=
  if l.getLast? = some '\n' then l.dropLast else l

/-- `next_kmer_and_line` (`km_diff.c` lines 44-64) on one raw line: fail
silently when fewer than `ksize` characters were read, warn and fail when
one of the first `ksize` characters is not accepted by `isnuc`, otherwise
return the first `ksize` characters as the k-mer together with the line
with its trailing newline removed. -/
def next_kmer_and_line (ksize : Nat) (raw : List Char) : ReadResult :=
  if raw.length < ksize then .eof
  else if (raw.take ksize).all (fun c => isnuc c.toNat == 1) then
    .ok (raw.take ksize) (stripNewline raw)
  else .warn

/-- A parsed row: the k-mer and the (newline-stripped) source line. -/
abbrev Row := List Char × List Char

/-- The sequence of rows the merge driver actually obtains from a file:
rows are read in order and the first failing `next_kmer_and_line` call
(short line or invalid character) permanently ends the stream, exactly as
`main` never reads again from a stream once `next_kmer_and_line` returned
false. -/
def streamRecords (ksize : Nat) : List (List Char) → List Row
  | [] => []
  | raw :: rest =>
    match next_kmer_and_line ksize raw with
    | .ok k l => (k, l) :: streamRecords ksize rest
    | _ => []

/-- Delimiter set of the `strtok(cpy," \t\n")` calls in `samples_number`. -/
def isSampleDelim (c : Char) : Bool := c = ' ' || c = '\t' || c = '\n'

/-- Accumulator-based `strtok` tokenizer: splits on spaces, tabs and
newlines, discarding empty tokens.  `acc` holds the characters of the token
currently being scanned, in reverse. -/
def tokensAux : List Char → List Char → List (List Char)
  | [], acc => if acc = [] then [] else [acc.reverse]
  | c :: cs, acc =>
    if isSampleDelim c then
      if acc = [] then tokensAux cs [] else acc.reverse :: tokensAux cs []
    else tokensAux cs (c :: acc)

/-- The sequence of `strtok(_, " \t\n")` tokens of a line. -/
def tokens (l : List Char) : List (List Char) := tokensAux l []

/-- `samples_number` (`km_diff.c` lines 66-79): number of whitespace
separated tokens of the line, not counting the first one. -/
def samples_number (line : List Char) : Nat := (tokens line).length - 1

/-- `first_column` (`km_diff.c` lines 81-85): skip the leading run of
non-space/tab characters, then the following run of spaces and tabs,
returning the rest of the line. -/
def first_column (line : List Char) : List Char :=
  (line.dropWhile (fun c => !(c = ' ' || c = '\t'))).dropWhile
    (fun c => c = ' ' || c = '\t')

/-- One output-producing step of `main`'s loops (`km_diff.c` lines 167-188).
`sepOnly` records an iteration of the merging loop that reached the final
`fputc('\n',outfile)` without any `fputs` (the `ret_cmp == 0` and
`ret_cmp > 0` branches); `emitMerge` records a `ret_cmp < 0` iteration,
which writes the current left line followed by the newline; `emitDrain`
records one iteration of the drain loop (lines 181-188).  The k-mer fields
mirror the contents of the C variables `kmer_1`/`kmer_2` at that moment;
rendering uses exactly what the C code writes. -/
inductive Event where
  | sepOnly : Event
  | emitMerge : List Char → List Char → Event
  | emitDrain : List Char → List Char → Nat → Event
deriving DecidableEq

/-- The bytes an event writes to the output file.  A drain iteration writes
the k-mer, one space, `first_column` of the stored line, `pad` copies of
`" 0"`, and a newline (`km_diff.c` lines 182-186). -/
def render : Event → List Char
  | .sepOnly => ['\n']
  | .emitMerge _ l => l ++ ['\n']
  | .emitDrain k l pad =>
    k ++ [' '] ++ first_column l ++ (List.replicate pad [' ', '0']).flatten ++ ['\n']

/-- Fuelled form of the merging loop (lines 167-179) followed by the drain
loop (lines 181-188), expressed on the row sequences the two readers
deliver (`streamRecords`).  Each emitted constructor corresponds to exactly
one iteration of one of the two C loops, in order.  Every iteration of the
merging loop consumes at least one row, so fuel `rs1.length + rs2.length`
is always sufficient (`mergeEventsF_congr` below); the fuelled form keeps
the definition structurally recursive. -/
def mergeEventsF (cmp : List Char → List Char → Int) :
    Nat → List Row → List Row → Nat → List Event
  | _, [], _, _ => []
  | _, r1 :: rs1, [], pad => (r1 :: rs1).map (fun r => .emitDrain r.1 r.2 pad)
  | 0, _ :: _, _ :: _, _ => []
  | fuel + 1, r1 :: rs1, r2 :: rs2, pad =>
    if cmp r1.1 r2.1 = 0 then .sepOnly :: mergeEventsF cmp fuel rs1 rs2 pad
    else if cmp r1.1 r2.1 < 0 then
      .emitMerge r1.1 r1.2 :: mergeEventsF cmp fuel rs1 (r2 :: rs2) pad
    else .sepOnly :: mergeEventsF cmp fuel (r1 :: rs1) rs2 pad

/-- The merging and drain loops of `main` on the two row sequences, with
adequate fuel. -/
def mergeEvents (cmp : List Char → List Char → Int)
    (rs1 rs2 : List Row) (pad : Nat) : List Event :=
  mergeEventsF cmp (rs1.length + rs2.length) rs1 rs2 pad

/-- Keys of the rows actually emitted: the k-mers of `emitMerge` and
`emitDrain` events, in order. -/
def emittedKeys (es : List Event) : List (List Char) :=
  es.filterMap fun e =>
    match e with
    | .sepOnly => none
    | .emitMerge k _ => some k
    | .emitDrain k _ _ => some k

/-- Key sequence of a row list. -/
def keysOf (rs : List Row) : List (List Char) := rs.map Prod.fst

/-- `n_sample_2` of `main` (lines 163-164): the number of sample columns of
the right stream's first row, or `0` when the right stream delivers no row
at all. -/
def rightWidth (ksize : Nat) (f2 : List (List Char)) : Nat :=
  match streamRecords ksize f2 with
  | [] => 0
  | r :: _ => samples_number r.2

/-- The whole post-open behaviour of `main` (lines 154-198) as the bytes
written to the output file: read the two streams, run the merging and drain
loops, render every write.  `use_ktcmp` selects the comparator of line 168.
The interleaving of reads with merge steps in C is observably the prefetch
of `streamRecords`, because a failed read permanently ends its stream. -/
def run_km_diff (ksize : Nat) (use_ktcmp : Bool)
    (f1 f2 : List (List Char)) : List Char :=
  ((mergeEvents (if use_ktcmp then ktcmp else strcmp)
      (streamRecords ksize f1) (streamRecords ksize f2)
      (rightWidth ksize f2)).map render).flatten

/-- Does option character `c` take an argument under the `getopt` option
string `"k:o:h"` of `km_diff.c` line 95? -/
def optTakesArg (c : Char) : Bool := c = 'k' || c = 'o'

/-- Is `c` one of the option characters of the option string `"k:o:h"`?
Note that `'z'` is absent, although the usage text (line 128) documents a
`-z` flag and `main` has a `case 'z'` (line 103). -/
def optKnown (c : Char) : Bool := c = 'k' || c = 'o' || c = 'h'

/-- Scan one option cluster (an argv element after its leading `-`) the way
`getopt` with option string `"k:o:h"` does.  Returns `none` when `getopt`
would return `'?'` (unknown option character), otherwise the recognised
options with their inline arguments plus, possibly, a final option
character still waiting for its argument in the next argv element. -/
def scanCluster : List Char → Option (List (Char × Option (List Char)) × Option Char)
  | [] => some ([], none)
  | c :: cs =>
    if !optKnown c then none
    else if optTakesArg c then
      match cs with
      | [] => some ([], some c)
      | _ :: _ => some ([(c, some cs)], none)
    else
      match scanCluster cs with
      | none => none
      | some (evs, pending) => some ((c, none) :: evs, pending)

/-- The whole `getopt` scan over argv (the elements after the program
name): produces the sequence of recognised options with their arguments
and the remaining positional arguments, or `none` when `getopt` returns
`'?'` (unknown option, or an option with a missing argument), which makes
`main` return 1 (line 110).  Scanning stops at the first non-option
argument and at `--`; glibc's permutation of non-options is not modelled,
which affects neither which options can be recognised nor the claims
below. -/
def getoptArgs : List (List Char) → Option (List (Char × Option (List Char)) × List (List Char))
  | [] => some ([], [])
  | arg :: rest =>
    if 2 ≤ arg.length ∧ arg.head? = some '-' then
      if arg = ['-', '-'] then some ([], rest)
      else
        match scanCluster (arg.drop 1) with
        | none => none
        | some (evs, none) =>
          match getoptArgs rest with
          | none => none
          | some (evs2, pos) => some (evs ++ evs2, pos)
        | some (evs, some c) =>
          match rest with
          | [] => none
          | a :: rest2 =>
            match getoptArgs rest2 with
            | none => none
            | some (evs2, pos) => some (evs ++ (c, some a) :: evs2, pos)
    else some ([], arg :: rest)

/-- Decimal digits value of the longest digit prefix. -/
def digitsVal : List Char → Int → Int
  | [], acc => acc
  | c :: cs, acc =>
    if c.isDigit then digitsVal cs (acc * 10 + ((c.toNat : Int) - 48))
    else acc

/-- `strtol(optarg, NULL, 10)` on a NUL-free string: skip leading
whitespace, an optional sign, then read the longest decimal-digit prefix
(0 when there is none).  Overflow clamping is not modelled. -/
def strtol10 (s : List Char) : Int :=
  match s.dropWhile (fun c => c.isWhitespace) with
  | '-' :: rest => -(digitsVal rest 0)
  | '+' :: rest => digitsVal rest 0
  | rest => digitsVal rest 0

/-- The option-controlled state of `main` (lines 90-92). -/
structure Opts where
  ksize : Int
  out_fname : Option (List Char)
  use_ktcmp : Bool
  help_opt : Bool
deriving DecidableEq

/-- The `switch` of `main`'s option loop (lines 95-114) applied to the
options `getopt` recognised, in order.  The `'z'` branch is transcribed
from the source (line 103-104) even though `getopt` with option string
`"k:o:h"` can never produce it. -/
def applyOpts : Opts → List (Char × Option (List Char)) → Opts
  | o, [] => o
  | o, (c, a) :: rest =>
    if c = 'k' then applyOpts { o with ksize := strtol10 (a.getD []) } rest
    else if c = 'o' then applyOpts { o with out_fname := a } rest
    else if c = 'z' then applyOpts { o with use_ktcmp := true } rest
    else if c = 'h' then applyOpts { o with help_opt := true } rest
    else o

/-- Outcome of `main` before any input file is opened (lines 95-131):
`optError` is the `case '?': return 1` path, `badK` the `ksize <= 0` check
(lines 116-119, exit 1), `usage` the help/wrong-positional-count path
(lines 121-131, which prints the usage text to stdout and returns 0), and
`proceed` reaches the `fopen` calls with the final options and the two
positional arguments. -/
inductive CliOutcome where
  | optError : CliOutcome
  | badK : Int → CliOutcome
  | usage : CliOutcome
  | proceed : Opts → List Char → List Char → CliOutcome
deriving DecidableEq

/-- The checks of `main` lines 116-131 after the option loop: the
`ksize <= 0` check, then the positional-count/help check, then execution
proceeds towards opening the files. -/
def cliPost (o : Opts) (pos : List (List Char)) : CliOutcome :=
  if o.ksize ≤ 0 then .badK o.ksize
  else if pos.length ≠ 2 ∨ o.help_opt then .usage
  else
    match pos with
    | [m1, m2] => .proceed o m1 m2
    | _ => .usage

/-- The argument-processing stage of `main`, on the argv elements after
the program name: the `getopt` loop (exiting 1 on `'?'`), the option
switch folded over the recognised options starting from the defaults of
lines 90-92, then the two configuration checks. -/
def cliStage (argv : List (List Char)) : CliOutcome :=
  match getoptArgs argv with
  | none => .optError
  | some (evs, pos) => cliPost (applyOpts ⟨31, none, false, false⟩ evs) pos

/-- Exit status and output-matrix bytes of a whole run of `km_diff`:
argument processing first; when it proceeds, the two input files (given
here by their line contents, assuming they open successfully) are merged
and `main` returns 0 (line 198).  The usage text, which goes to stdout in
the `usage` outcome, is not part of the output matrix. -/
def km_diff_main (argv : List (List Char)) (f1 f2 : List (List Char)) :
    Int × List Char :=
  match cliStage argv with
  | .optError => (1, [])
  | .badK _ => (1, [])
  | .usage => (0, [])
  | .proceed o _ _ => (0, run_km_diff o.ksize.toNat o.use_ktcmp f1 f2)

/-- Rank table written in the words of the specification of the
nucleotide-rank comparator: A mapped to 0, C to 1, T to 2, G to 3 (and any
other byte to 1).  Used to compare `ktcmp` against the spec's description. -/
def specRank : Char → Int
  | 'A' => 0
  | 'C' => 1
  | 'T' => 2
  | 'G' => 3
  | _ => 1

/-! ### Shared lemmas about the merge driver -/

/-- Any two sufficient fuel amounts give `mergeEventsF` the same value. -/
theorem mergeEventsF_congr (cmp : List Char → List Char → Int) :
    ∀ f g (rs1 rs2 : List Row) (pad : Nat),
      rs1.length + rs2.length ≤ f → rs1.length + rs2.length ≤ g →
      mergeEventsF cmp f rs1 rs2 pad = mergeEventsF cmp g rs1 rs2 pad := by
  intro f
  induction f with
  | zero =>
    intro g rs1 rs2 pad hf _
    cases rs1 with
    | nil => cases g <;> rfl
    | cons r1 t1 => simp at hf
  | succ f ih =>
    intro g rs1 rs2 pad hf hg
    cases rs1 with
    | nil => cases g <;> rfl
    | cons r1 t1 =>
      cases rs2 with
      | nil => cases g <;> rfl
      | cons r2 t2 =>
        cases g with
        | zero => simp at hg
        | succ g =>
          simp only [List.length_cons] at hf hg
          simp only [mergeEventsF]
          by_cases h0 : cmp r1.1 r2.1 = 0
          · simp only [if_pos h0]
            rw [ih g t1 t2 pad (by omega) (by omega)]
          · simp only [if_neg h0]
            by_cases hlt : cmp r1.1 r2.1 < 0
            · simp only [if_pos hlt]
              rw [ih g t1 (r2 :: t2) pad
                (by simp only [List.length_cons]; omega)
                (by simp only [List.length_cons]; omega)]
            · simp only [if_neg hlt]
              rw [ih g (r1 :: t1) t2 pad
                (by simp only [List.length_cons]; omega)
                (by simp only [List.length_cons]; omega)]

/-- With an exhausted left stream nothing at all is written. -/
theorem mergeEvents_nil (cmp : List Char → List Char → Int)
    (rs2 : List Row) (pad : Nat) : mergeEvents cmp [] rs2 pad = [] := by
  show mergeEventsF cmp _ [] rs2 pad = []
  cases h : (List.length ([] : List Row) + rs2.length) <;> rfl

/-- With an exhausted right stream, every remaining left row becomes one
drain iteration. -/
theorem mergeEvents_drain (cmp : List Char → List Char → Int)
    (r1 : Row) (rs1 : List Row) (pad : Nat) :
    mergeEvents cmp (r1 :: rs1) [] pad =
      (r1 :: rs1).map (fun r => .emitDrain r.1 r.2 pad) := by
  show mergeEventsF cmp _ (r1 :: rs1) [] pad = _
  cases h : ((r1 :: rs1).length + List.length ([] : List Row)) <;> rfl

/-- Unfolding equation of one merging-loop iteration. -/
theorem mergeEvents_cons (cmp : List Char → List Char → Int)
    (r1 : Row) (t1 : List Row) (r2 : Row) (t2 : List Row) (pad : Nat) :
    mergeEvents cmp (r1 :: t1) (r2 :: t2) pad =
      if cmp r1.1 r2.1 = 0 then .sepOnly :: mergeEvents cmp t1 t2 pad
      else if cmp r1.1 r2.1 < 0 then
        .emitMerge r1.1 r1.2 :: mergeEvents cmp t1 (r2 :: t2) pad
      else .sepOnly :: mergeEvents cmp (r1 :: t1) t2 pad := by
  show mergeEventsF cmp ((r1 :: t1).length + (r2 :: t2).length) _ _ pad = _
  have hfe : (r1 :: t1).length + (r2 :: t2).length = (t1.length + 1 + t2.length) + 1 := by
    simp only [List.length_cons]; omega
  rw [hfe]
  simp only [mergeEventsF]
  by_cases h0 : cmp r1.1 r2.1 = 0
  · simp only [if_pos h0]
    rw [mergeEventsF_congr cmp (t1.length + 1 + t2.length)
      (t1.length + t2.length) t1 t2 pad (by omega) (by omega)]
    rfl
  · simp only [if_neg h0]
    by_cases hlt : cmp r1.1 r2.1 < 0
    · simp only [if_pos hlt]
      rw [mergeEventsF_congr cmp (t1.length + 1 + t2.length)
        (t1.length + (r2 :: t2).length) t1 (r2 :: t2) pad
        (by simp only [List.length_cons]; omega) (le_refl _)]
      rfl
    · simp only [if_neg hlt]
      rw [mergeEventsF_congr cmp (t1.length + 1 + t2.length)
        ((r1 :: t1).length + t2.length) (r1 :: t1) t2 pad
        (by simp only [List.length_cons]; omega) (le_refl _)]
      rfl

theorem keysOf_nil : keysOf [] = [] := rfl

theorem keysOf_cons (r : Row) (rs : List Row) :
    keysOf (r :: rs) = r.1 :: keysOf rs := rfl

theorem emittedKeys_nil : emittedKeys [] = [] := rfl

theorem emittedKeys_sep (es : List Event) :
    emittedKeys (.sepOnly :: es) = emittedKeys es := rfl

theorem emittedKeys_merge (k l : List Char) (es : List Event) :
    emittedKeys (.emitMerge k l :: es) = k :: emittedKeys es := rfl

/-- Keys of a pure drain phase: exactly the remaining left keys. -/
theorem emittedKeys_drain_map (pad : Nat) (rs : List Row) :
    emittedKeys (rs.map (fun r => .emitDrain r.1 r.2 pad)) = keysOf rs := by
  induction rs with
  | nil => rfl
  | cons r t ih =>
    simpa [emittedKeys, keysOf] using congrArg (r.1 :: ·) ih

/-- From `cmp a b < 0` and a `≤ 0`-chain starting at `b`, `a` compares
strictly below every element of the chain (transitivity is assumed only on
the ambient key collection `S`). -/
theorem lt_all_of_chainLe (cmp : List Char → List Char → Int)
    (S : List (List Char))
    (htr : ∀ x ∈ S, ∀ y ∈ S, ∀ z ∈ S, cmp x y < 0 → cmp y z ≤ 0 → cmp x z < 0) :
    ∀ (ks : List (List Char)) (a b : List Char), a ∈ S → b ∈ S →
      (∀ k ∈ ks, k ∈ S) → cmp a b < 0 →
      List.Chain' (fun u v => cmp u v ≤ 0) (b :: ks) →
      ∀ x ∈ b :: ks, cmp a x < 0 := by
  intro ks
  induction ks with
  | nil =>
    intro a b _ _ _ hab _ x hx
    rw [List.mem_singleton] at hx
    rw [hx]
    exact hab
  | cons c ks ih =>
    intro a b ha hb hks hab hch x hx
    rcases List.mem_cons.mp hx with hxb | hxc
    · rw [hxb]; exact hab
    · have hbc : cmp b c ≤ 0 := (List.chain'_cons.mp hch).1
      have hcS : c ∈ S := hks c (List.mem_cons_self c ks)
      have hac : cmp a c < 0 := htr a ha b hb c hcS hab hbc
      exact ih a c ha hcS (fun k hk => hks k (List.mem_cons_of_mem c hk)) hac
        (List.chain'_cons.mp hch).2 x hxc

/-- The head of a strictly increasing key chain compares strictly below
every later element. -/
theorem lt_all_of_chainLt (cmp : List Char → List Char → Int)
    (S : List (List Char))
    (htr : ∀ x ∈ S, ∀ y ∈ S, ∀ z ∈ S, cmp x y < 0 → cmp y z ≤ 0 → cmp x z < 0)
    (ks : List (List Char)) (k : List Char) (hk : k ∈ S)
    (hks : ∀ x ∈ ks, x ∈ S)
    (hch : List.Chain' (fun u v => cmp u v < 0) (k :: ks)) :
    ∀ x ∈ ks, cmp k x < 0 := by
  cases ks with
  | nil => intro x hx; simp at hx
  | cons b ks =>
    have hab : cmp k b < 0 := (List.chain'_cons.mp hch).1
    have hle : List.Chain' (fun u v => cmp u v ≤ 0) (b :: ks) :=
      List.Chain'.imp (fun u v h => le_of_lt h) (List.chain'_cons.mp hch).2
    exact lt_all_of_chainLe cmp S htr ks k b hk (hks b (List.mem_cons_self b ks))
      (fun x hx => hks x (List.mem_cons_of_mem b hx)) hab hle

/-- Filtering by non-membership drops a head that belongs to the reference
list. -/
theorem filter_cons_of_mem_ref (a : List Char) (l K : List (List Char))
    (ha : a ∈ K) :
    (a :: l).filter (fun k => decide (k ∉ K)) = l.filter (fun k => decide (k ∉ K)) := by
  rw [List.filter_cons]
  simp [ha]

/-- Filtering by non-membership keeps a head outside the reference list. -/
theorem filter_cons_of_not_mem_ref (a : List Char) (l K : List (List Char))
    (ha : a ∉ K) :
    (a :: l).filter (fun k => decide (k ∉ K)) = a :: l.filter (fun k => decide (k ∉ K)) := by
  rw [List.filter_cons]
  simp [ha]

/-- An element of the reference list that occurs nowhere in `l` can be
dropped from the reference list without changing the filter. -/
theorem filter_not_mem_cons_eq (l : List (List Char)) (b : List Char) (K : List (List Char))
    (h : ∀ x ∈ l, x ≠ b) :
    l.filter (fun k => decide (k ∉ b :: K)) = l.filter (fun k => decide (k ∉ K)) := by
  apply List.filter_congr
  intro x hx
  simp [List.mem_cons, h x hx]

/-! ### Claim C1 -/

/-- C1 (corrected).  The frozen claim assumes only that both streams are
sorted non-decreasingly, which is refuted by a duplicated left key
(`C1_counterexample_duplicate_left_key`).  Amended statement: when the
selected comparator behaves as a strict total order on the keys involved
(`cmp x y = 0` exactly for equal keys, and `<` composes with `≤`
transitively), the *left* stream's keys are strictly increasing and the
right stream's keys are non-decreasing, the sequence of keys of the rows
emitted by the merge equals the subsequence of left-stream keys that occur
nowhere as a key in the right stream, in left-stream order. -/
theorem C1_merge_emits_left_keys_absent_from_right
    (cmp : List Char → List Char → Int) (S : List (List Char))
    (heq : ∀ x ∈ S, ∀ y ∈ S, (cmp x y = 0 ↔ x = y))
    (htr : ∀ x ∈ S, ∀ y ∈ S, ∀ z ∈ S, cmp x y < 0 → cmp y z ≤ 0 → cmp x z < 0) :
    ∀ (rs1 rs2 : List Row) (pad : Nat),
      (∀ k ∈ keysOf rs1, k ∈ S) →
      List.Chain' (fun a b => cmp a b < 0) (keysOf rs1) →
      (∀ k ∈ keysOf rs2, k ∈ S) →
      List.Chain' (fun a b => cmp a b ≤ 0) (keysOf rs2) →
      emittedKeys (mergeEvents cmp rs1 rs2 pad) =
        (keysOf rs1).filter (fun k => decide (k ∉ keysOf rs2)) := by
  intro rs1
  induction rs1 with
  | nil =>
    intro rs2 pad _ _ _ _
    rw [mergeEvents_nil, emittedKeys_nil, keysOf_nil, List.filter_nil]
  | cons r1 t1 ih1 =>
    intro rs2 pad hS1 h1
    induction rs2 with
    | nil =>
      intro _ _
      rw [mergeEvents_drain, emittedKeys_drain_map, keysOf_nil]
      simp
    | cons r2 t2 ih2 =>
      intro hS2 h2
      have hr1S : r1.1 ∈ S := hS1 r1.1 (by rw [keysOf_cons]; exact List.mem_cons_self _ _)
      have hr2S : r2.1 ∈ S := hS2 r2.1 (by rw [keysOf_cons]; exact List.mem_cons_self _ _)
      have hS1t : ∀ k ∈ keysOf t1, k ∈ S := fun k hk =>
        hS1 k (by rw [keysOf_cons]; exact List.mem_cons_of_mem _ hk)
      have hS2t : ∀ k ∈ keysOf t2, k ∈ S := fun k hk =>
        hS2 k (by rw [keysOf_cons]; exact List.mem_cons_of_mem _ hk)
      have h1t : List.Chain' (fun a b => cmp a b < 0) (keysOf t1) := by
        rw [keysOf_cons] at h1; exact h1.tail
      have h2t : List.Chain' (fun a b => cmp a b ≤ 0) (keysOf t2) := by
        rw [keysOf_cons] at h2; exact h2.tail
      have hlt_left : ∀ x ∈ keysOf t1, cmp r1.1 x < 0 := by
        intro x hx
        exact lt_all_of_chainLt cmp S htr (keysOf t1) r1.1 hr1S hS1t
          (by rw [keysOf_cons] at h1; exact h1) x hx
      rw [mergeEvents_cons]
      by_cases h0 : cmp r1.1 r2.1 = 0
      · have heq12 : r1.1 = r2.1 := (heq r1.1 hr1S r2.1 hr2S).mp h0
        rw [if_pos h0, emittedKeys_sep, ih1 t2 pad hS1t h1t hS2t h2t,
          keysOf_cons r1 t1, keysOf_cons r2 t2,
          filter_cons_of_mem_ref r1.1 (keysOf t1) (r2.1 :: keysOf t2)
            (by rw [heq12]; exact List.mem_cons_self _ _),
          filter_not_mem_cons_eq (keysOf t1) r2.1 (keysOf t2)
            (by
              intro x hx hxe
              have h1x : cmp r1.1 x < 0 := hlt_left x hx
              rw [hxe] at h1x
              omega)]
      · rw [if_neg h0]
        by_cases hlt : cmp r1.1 r2.1 < 0
        · have hnot : r1.1 ∉ keysOf (r2 :: t2) := by
            intro hmem
            have hall : ∀ x ∈ r2.1 :: keysOf t2, cmp r1.1 x < 0 :=
              lt_all_of_chainLe cmp S htr (keysOf t2) r1.1 r2.1 hr1S hr2S hS2t hlt
                (by rw [keysOf_cons] at h2; exact h2)
            rw [keysOf_cons] at hmem
            have hself : cmp r1.1 r1.1 < 0 := hall r1.1 hmem
            have hzero : cmp r1.1 r1.1 = 0 := (heq r1.1 hr1S r1.1 hr1S).mpr rfl
            omega
          rw [if_pos hlt, emittedKeys_merge, ih1 (r2 :: t2) pad hS1t h1t hS2 h2,
            keysOf_cons r1 t1,
            filter_cons_of_not_mem_ref r1.1 (keysOf t1) (keysOf (r2 :: t2)) hnot]
        · rw [if_neg hlt, emittedKeys_sep, ih2 hS2t h2t, keysOf_cons r2 t2,
            filter_not_mem_cons_eq (keysOf (r1 :: t1)) r2.1 (keysOf t2)
              (by
                intro x hx hxe
                rw [keysOf_cons] at hx
                rcases List.mem_cons.mp hx with hh | hh
                · rw [hh] at hxe
                  exact h0 ((heq r1.1 hr1S r2.1 hr2S).mpr hxe)
                · have h1x : cmp r1.1 x < 0 := hlt_left x hh
                  rw [hxe] at h1x
                  omega)]

/-- C1 as frozen is false.  Both streams below are sorted non-decreasingly
under the default lexicographic order, yet the key "AAA", which occurs in
the right stream, is emitted: the merging loop cancels the right stream's
only "AAA" row against the first left duplicate, and the second left
"AAA" row is then emitted by the drain loop. -/
theorem C1_counterexample_duplicate_left_key :
    List.Chain' (fun a b => strcmp a b ≤ 0)
      (keysOf [("AAA".data, "AAA 1".data), ("AAA".data, "AAA 2".data)]) ∧
    List.Chain' (fun a b => strcmp a b ≤ 0) (keysOf [("AAA".data, "AAA 3".data)]) ∧
    emittedKeys (mergeEvents strcmp
        [("AAA".data, "AAA 1".data), ("AAA".data, "AAA 2".data)]
        [("AAA".data, "AAA 3".data)] 1) ≠
      (keysOf [("AAA".data, "AAA 1".data), ("AAA".data, "AAA 2".data)]).filter
        (fun k => decide (k ∉ keysOf [("AAA".data, "AAA 3".data)])) := by
  refine ⟨?_, ?_, ?_⟩
  · simp only [keysOf, List.map_cons, List.map_nil, List.chain'_cons,
      List.chain'_singleton, and_true]
    decide
  · simp only [keysOf, List.map_cons, List.map_nil, List.chain'_singleton]
  · decide

/-- Witness for `C1_merge_emits_left_keys_absent_from_right` at the
specification's own P6 example (keys AAA, AAC, TTT on the left and AAC,
GGG on the right, all hypotheses discharged concretely). -/
theorem C1_merge_emits_left_keys_absent_from_right_witness :
    List.Chain' (fun a b => strcmp a b < 0)
      (keysOf [("AAA".data, "AAA 1 2".data), ("AAC".data, "AAC 0 1".data),
        ("TTT".data, "TTT 3 3".data)]) ∧
    List.Chain' (fun a b => strcmp a b ≤ 0)
      (keysOf [("AAC".data, "AAC 5 5".data), ("GGG".data, "GGG 0 0".data)]) ∧
    emittedKeys (mergeEvents strcmp
        [("AAA".data, "AAA 1 2".data), ("AAC".data, "AAC 0 1".data),
          ("TTT".data, "TTT 3 3".data)]
        [("AAC".data, "AAC 5 5".data), ("GGG".data, "GGG 0 0".data)] 2) =
      (keysOf [("AAA".data, "AAA 1 2".data), ("AAC".data, "AAC 0 1".data),
        ("TTT".data, "TTT 3 3".data)]).filter
        (fun k => decide (k ∉ keysOf
          [("AAC".data, "AAC 5 5".data), ("GGG".data, "GGG 0 0".data)])) := by
  have hch1 : List.Chain' (fun a b => strcmp a b < 0)
      (keysOf [("AAA".data, "AAA 1 2".data), ("AAC".data, "AAC 0 1".data),
        ("TTT".data, "TTT 3 3".data)]) := by
    simp only [keysOf, List.map_cons, List.map_nil, List.chain'_cons,
      List.chain'_singleton, and_true]
    exact ⟨by decide, by decide⟩
  have hch2 : List.Chain' (fun a b => strcmp a b ≤ 0)
      (keysOf [("AAC".data, "AAC 5 5".data), ("GGG".data, "GGG 0 0".data)]) := by
    simp only [keysOf, List.map_cons, List.map_nil, List.chain'_cons,
      List.chain'_singleton, and_true]
    decide
  exact ⟨hch1, hch2, C1_merge_emits_left_keys_absent_from_right strcmp
    ["AAA".data, "AAC".data, "TTT".data, "GGG".data] (by decide) (by decide)
    [("AAA".data, "AAA 1 2".data), ("AAC".data, "AAC 0 1".data),
      ("TTT".data, "TTT 3 3".data)]
    [("AAC".data, "AAC 5 5".data), ("GGG".data, "GGG 0 0".data)] 2
    (by decide) hch1 (by decide) hch2⟩

/-! ### Claims C2 and C3 -/

/-- C2 (code bug).  On the specification's P6 input (K=3, lexicographic
order) the program does emit "AAA 1 2" and "TTT 3 3 0 0" in this order,
but the output is *not* exactly those two lines: the `fputc('\n',outfile)`
at line 178 of `km_diff.c` sits outside the `if`/`else if` chain, so the
equal-keys iteration (dropping "AAC") and the left-greater iteration
(consuming "GGG") each write a bare newline, producing two blank lines
between the two rows. -/
theorem C2_p6_output_contains_blank_lines :
    run_km_diff 3 false
        ["AAA 1 2\n".data, "AAC 0 1\n".data, "TTT 3 3\n".data]
        ["AAC 5 5\n".data, "GGG 0 0\n".data] =
      "AAA 1 2\n\n\nTTT 3 3 0 0\n".data ∧
    run_km_diff 3 false
        ["AAA 1 2\n".data, "AAC 0 1\n".data, "TTT 3 3\n".data]
        ["AAC 5 5\n".data, "GGG 0 0\n".data] ≠
      "AAA 1 2\nTTT 3 3 0 0\n".data := by
  exact ⟨by decide, by decide⟩

/-- C3 (code bug).  A merging-loop iteration on equal keys, and one with
the left key greater, are claimed to leave the output untouched; in fact
each such iteration appends one newline byte (`km_diff.c` line 178).  With
one equal pair the whole run outputs a single newline instead of nothing;
with a single left-greater comparison the run outputs a newline followed
by the drained row. -/
theorem C3_equal_and_greater_iterations_append_newline :
    run_km_diff 3 false ["AAC 1 1\n".data] ["AAC 2 2\n".data] = "\n".data ∧
    "\n".data ≠ ([] : List Char) ∧
    run_km_diff 3 false ["TTT 1 1\n".data] ["GGG 2 2\n".data] =
      ("\n" ++ "TTT 1 1 0 0\n").data := by
  refine ⟨by decide, by decide, by decide⟩

/-! ### Claim C4 -/

/-- C4 as frozen is false: the `isnuc` table accepts `N` and the lowercase
letters `a,c,g,t,n` as key characters, so a line whose first K characters
include `'N'` (or lowercase bases) is accepted as a valid row rather than
warned about and turned into end-of-stream. -/
theorem C4_counterexample_N_and_lowercase_accepted :
    next_kmer_and_line 3 "NNN 1\n".data = .ok "NNN".data "NNN 1".data ∧
    'N' ∉ (['A', 'C', 'G', 'T'] : List Char) ∧
    next_kmer_and_line 3 "acg 1\n".data = .ok "acg".data "acg 1".data ∧
    'a' ∉ (['A', 'C', 'G', 'T'] : List Char) := by
  refine ⟨by decide, by decide, by decide, by decide⟩

set_option maxRecDepth 4096 in
/-- C4 (corrected).  For a line long enough to pass the length check, the
reader accepts it exactly when each of its first K characters is accepted
by the `isnuc` table, which — on the byte range the C code indexes —
holds exactly for the ten characters A, C, G, T, N, a, c, g, t, n; on any
other character among the first K it reports the input-format warning and
signals end-of-stream for that file. -/
theorem C4_reader_alphabet (ksize : Nat) (raw : List Char)
    (hlen : ¬ raw.length < ksize) :
    ((∃ k l, next_kmer_and_line ksize raw = .ok k l) ↔
      ∀ c ∈ raw.take ksize, isnuc c.toNat = 1) ∧
    (¬ (∀ c ∈ raw.take ksize, isnuc c.toNat = 1) →
      next_kmer_and_line ksize raw = .warn) ∧
    (∀ n < 256, (isnuc n = 1 ↔
      n ∈ (['A', 'C', 'G', 'T', 'N', 'a', 'c', 'g', 't', 'n'].map Char.toNat))) := by
  refine ⟨⟨?_, ?_⟩, ?_, ?_⟩
  · rintro ⟨k, l, hok⟩
    unfold next_kmer_and_line at hok
    rw [if_neg hlen] at hok
    by_cases hall : (raw.take ksize).all (fun c => isnuc c.toNat == 1)
    · intro c hc
      simpa using List.all_eq_true.mp hall c hc
    · rw [if_neg hall] at hok
      exact ReadResult.noConfusion hok
  · intro hall
    refine ⟨raw.take ksize, stripNewline raw, ?_⟩
    unfold next_kmer_and_line
    rw [if_neg hlen, if_pos (List.all_eq_true.mpr (fun c hc => by simpa using hall c hc))]
  · intro hnot
    unfold next_kmer_and_line
    rw [if_neg hlen, if_neg (fun hall =>
      hnot (fun c hc => by simpa using List.all_eq_true.mp hall c hc))]
  · decide

/-- Witness for `C4_reader_alphabet` on the concrete line "AXGT 7". -/
theorem C4_reader_alphabet_witness :
    ¬ ("AXGT 7\n".data.length < 4) ∧
    (((∃ k l, next_kmer_and_line 4 "AXGT 7\n".data = .ok k l) ↔
      ∀ c ∈ "AXGT 7\n".data.take 4, isnuc c.toNat = 1) ∧
    (¬ (∀ c ∈ "AXGT 7\n".data.take 4, isnuc c.toNat = 1) →
      next_kmer_and_line 4 "AXGT 7\n".data = .warn) ∧
    (∀ n < 256, (isnuc n = 1 ↔
      n ∈ (['A', 'C', 'G', 'T', 'N', 'a', 'c', 'g', 't', 'n'].map Char.toNat)))) :=
  ⟨by decide, C4_reader_alphabet 4 "AXGT 7\n".data (by decide)⟩

/-! ### Claim C5 -/

/-- `ktcmp` of any key against itself is zero: either the walk reaches the
end of both strings, or it stops at a NUL and subtracts equal ranks. -/
theorem ktcmp_self : ∀ k : List Char, ktcmp k k = 0 := by
  intro k
  induction k with
  | nil => simp [ktcmp]
  | cons x xs ih =>
    by_cases hx : x.toNat = 0
    · simp [ktcmp, hx]
    · simp [ktcmp, hx, ih]

/-- On the four uppercase bases, the transcribed `n2kt` table agrees with
the specification's rank table A↦0, C↦1, T↦2, G↦3. -/
theorem n2kt_eq_specRank (c : Char) (hc : c ∈ (['A', 'C', 'G', 'T'] : List Char)) :
    n2kt c.toNat = specRank c := by
  simp only [List.mem_cons, List.mem_singleton, List.not_mem_nil, or_false] at hc
  rcases hc with rfl | rfl | rfl | rfl <;> decide

theorem toNat_ne_zero_of_base (c : Char) (hc : c ∈ (['A', 'C', 'G', 'T'] : List Char)) :
    c.toNat ≠ 0 := by
  simp only [List.mem_cons, List.mem_singleton, List.not_mem_nil, or_false] at hc
  rcases hc with rfl | rfl | rfl | rfl <;> decide

/-- On distinct equal-length keys over {A,C,G,T}, `ktcmp` returns the
difference of the spec ranks at the first position where the keys differ
(the common prefix `p` is maximal by construction: the heads after it
differ). -/
theorem ktcmp_first_diff : ∀ (k1 k2 : List Char), k1.length = k2.length →
    (∀ c ∈ k1, c ∈ (['A', 'C', 'G', 'T'] : List Char)) →
    (∀ c ∈ k2, c ∈ (['A', 'C', 'G', 'T'] : List Char)) →
    k1 ≠ k2 →
    ∃ p a b t1 t2, k1 = p ++ a :: t1 ∧ k2 = p ++ b :: t2 ∧ a ≠ b ∧
      ktcmp k1 k2 = specRank a - specRank b := by
  intro k1
  induction k1 with
  | nil =>
    intro k2 hlen _ _ hne
    have hk : k2 = [] := List.length_eq_zero.mp (by simpa using hlen.symm)
    exact absurd hk.symm hne
  | cons a t1 ih =>
    intro k2 hlen h1 h2 hne
    cases k2 with
    | nil => simp at hlen
    | cons b t2 =>
      by_cases hab : a = b
      · subst hab
        have ha0 : a.toNat ≠ 0 := toNat_ne_zero_of_base a (h1 a (List.mem_cons_self a t1))
        have hrec : ktcmp (a :: t1) (a :: t2) = ktcmp t1 t2 := by
          simp [ktcmp, ha0]
        have hne2 : t1 ≠ t2 := fun h => hne (by rw [h])
        have hlen2 : t1.length = t2.length := by simpa using hlen
        obtain ⟨p, x, y, s1, s2, he1, he2, hxy, hval⟩ :=
          ih t2 hlen2 (fun c hc => h1 c (List.mem_cons_of_mem a hc))
            (fun c hc => h2 c (List.mem_cons_of_mem a hc)) hne2
        exact ⟨a :: p, x, y, s1, s2, by rw [he1]; rfl, by rw [he2]; rfl, hxy,
          by rw [hrec, hval]⟩
      · refine ⟨[], a, b, t1, t2, rfl, rfl, hab, ?_⟩
        have hstep : ktcmp (a :: t1) (b :: t2) = n2kt a.toNat - n2kt b.toNat := by
          simp [ktcmp, hab]
        rw [hstep, n2kt_eq_specRank a (h1 a (List.mem_cons_self a t1)),
          n2kt_eq_specRank b (h2 b (List.mem_cons_self b t2))]

/-- C5 (confirmed).  On equal-length keys over {A,C,G,T} the
nucleotide-rank comparator returns 0 exactly on identical keys and
otherwise the signed difference of the ranks (A↦0, C↦1, T↦2, G↦3) at the
first differing position; single-character keys order "A" < "C" < "T" <
"G". -/
theorem C5_ktcmp_is_rank_difference (k1 k2 : List Char)
    (hlen : k1.length = k2.length)
    (h1 : ∀ c ∈ k1, c ∈ (['A', 'C', 'G', 'T'] : List Char))
    (h2 : ∀ c ∈ k2, c ∈ (['A', 'C', 'G', 'T'] : List Char)) :
    (k1 = k2 → ktcmp k1 k2 = 0) ∧
    (k1 ≠ k2 → ∃ p a b t1 t2, k1 = p ++ a :: t1 ∧ k2 = p ++ b :: t2 ∧ a ≠ b ∧
      ktcmp k1 k2 = specRank a - specRank b) ∧
    (ktcmp ['A'] ['C'] < 0 ∧ ktcmp ['C'] ['T'] < 0 ∧ ktcmp ['T'] ['G'] < 0) := by
  refine ⟨?_, ?_, by decide⟩
  · intro h
    rw [h]
    exact ktcmp_self k2
  · exact ktcmp_first_diff k1 k2 hlen h1 h2

/-- Witness for `C5_ktcmp_is_rank_difference` on the keys "AAT", "AAG". -/
theorem C5_ktcmp_is_rank_difference_witness :
    ("AAT".data.length = "AAG".data.length) ∧
    (∀ c ∈ "AAT".data, c ∈ (['A', 'C', 'G', 'T'] : List Char)) ∧
    (∀ c ∈ "AAG".data, c ∈ (['A', 'C', 'G', 'T'] : List Char)) ∧
    (("AAT".data = "AAG".data → ktcmp "AAT".data "AAG".data = 0) ∧
    ("AAT".data ≠ "AAG".data → ∃ p a b t1 t2, "AAT".data = p ++ a :: t1 ∧
      "AAG".data = p ++ b :: t2 ∧ a ≠ b ∧
      ktcmp "AAT".data "AAG".data = specRank a - specRank b) ∧
    (ktcmp ['A'] ['C'] < 0 ∧ ktcmp ['C'] ['T'] < 0 ∧ ktcmp ['T'] ['G'] < 0)) :=
  ⟨by decide, by decide, by decide,
    C5_ktcmp_is_rank_difference "AAT".data "AAG".data (by decide) (by decide) (by decide)⟩

/-! ### Claim C6 -/

/-- C6 (confirmed).  Once the right stream is exhausted, every remaining
left row is emitted as one drain event; a drain event renders as the key,
one space, the row's sample-column text, and exactly `pad` copies of
`" 0"` before the newline, whatever the left row's own column count; and
the `pad` used by `run_km_diff` is `rightWidth`, the sample count of the
right stream's first row (0 when the right stream delivers no row). -/
theorem C6_drain_appends_right_width_zero_columns :
    (∀ (cmp : List Char → List Char → Int) (pad : Nat) (rs : List Row),
      mergeEvents cmp rs [] pad = rs.map (fun r => Event.emitDrain r.1 r.2 pad)) ∧
    (∀ (k l : List Char) (pad : Nat),
      render (Event.emitDrain k l pad) =
        k ++ [' '] ++ first_column l ++ (List.replicate pad [' ', '0']).flatten ++ ['\n']) ∧
    (∀ (ksize : Nat) (f2 : List (List Char)),
      rightWidth ksize f2 =
        match streamRecords ksize f2 with
        | [] => 0
        | r :: _ => samples_number r.2) := by
  refine ⟨?_, fun k l pad => rfl, fun ksize f2 => rfl⟩
  intro cmp pad rs
  cases rs with
  | nil => rw [mergeEvents_nil]; rfl
  | cons r t => exact mergeEvents_drain cmp r t pad

/-! ### Claim C7 -/

/-- Every option recognised by the `getopt` scan of one cluster is one of
the option-string characters `k`, `o`, `h` — in particular never `z`. -/
theorem scanCluster_known : ∀ (cl : List Char) evs pending,
    scanCluster cl = some (evs, pending) →
    (∀ e ∈ evs, optKnown e.1 = true) ∧ (∀ c, pending = some c → optKnown c = true) := by
  intro cl
  induction cl with
  | nil =>
    intro evs pending h
    simp only [scanCluster, Option.some_inj] at h
    obtain ⟨rfl, rfl⟩ := Prod.mk.injEq .. ▸ h
    exact ⟨by intro e he; simp at he, by intro c hc; exact Option.noConfusion hc⟩
  | cons c cs ih =>
    intro evs pending h
    unfold scanCluster at h
    by_cases hk : optKnown c
    · rw [if_neg (by simp [hk])] at h
      by_cases ht : optTakesArg c
      · rw [if_pos ht] at h
        cases cs with
        | nil =>
          obtain ⟨rfl, rfl⟩ := Prod.mk.injEq .. ▸ Option.some_inj.mp h
          refine ⟨by intro e he; simp at he, ?_⟩
          intro d hd
          cases hd
          exact hk
        | cons c2 cs2 =>
          obtain ⟨rfl, rfl⟩ := Prod.mk.injEq .. ▸ Option.some_inj.mp h
          refine ⟨?_, by intro d hd; exact Option.noConfusion hd⟩
          intro e he
          rw [List.mem_singleton] at he
          rw [he]
          exact hk
      · rw [if_neg ht] at h
        cases hs : scanCluster cs with
        | none => rw [hs] at h; exact Option.noConfusion h
        | some p =>
          obtain ⟨evs2, p2⟩ := p
          rw [hs] at h
          obtain ⟨rfl, rfl⟩ := Prod.mk.injEq .. ▸ Option.some_inj.mp h
          obtain ⟨ih1, ih2⟩ := ih evs2 p2 hs
          refine ⟨?_, ih2⟩
          intro e he
          rcases List.mem_cons.mp he with rfl | he2
          · exact hk
          · exact ih1 e he2
    · rw [if_pos (by simp [hk])] at h
      exact Option.noConfusion h

/-- Every option the whole `getopt` scan delivers to `main`'s switch is
one of `k`, `o`, `h`. -/
theorem getoptArgs_known : ∀ (n : Nat) (argv : List (List Char)), argv.length ≤ n →
    ∀ evs pos, getoptArgs argv = some (evs, pos) → ∀ e ∈ evs, optKnown e.1 = true := by
  intro n
  induction n with
  | zero =>
    intro argv hn evs pos h e he
    have hz : argv = [] := List.length_eq_zero.mp (Nat.le_zero.mp hn)
    subst hz
    simp only [getoptArgs, Option.some_inj] at h
    obtain ⟨rfl, rfl⟩ := Prod.mk.injEq .. ▸ h
    simp at he
  | succ n ihn =>
    intro argv hn evs pos h e he
    cases argv with
    | nil =>
      simp only [getoptArgs, Option.some_inj] at h
      obtain ⟨rfl, rfl⟩ := Prod.mk.injEq .. ▸ h
      simp at he
    | cons arg rest =>
      have hr : rest.length ≤ n := by
        simp only [List.length_cons] at hn
        omega
      unfold getoptArgs at h
      by_cases hopt : 2 ≤ arg.length ∧ arg.head? = some '-'
      · rw [if_pos hopt] at h
        by_cases hdd : arg = ['-', '-']
        · rw [if_pos hdd] at h
          obtain ⟨rfl, rfl⟩ := Prod.mk.injEq .. ▸ Option.some_inj.mp h
          simp at he
        · rw [if_neg hdd] at h
          cases hs : scanCluster (arg.drop 1) with
          | none => rw [hs] at h; exact Option.noConfusion h
          | some p =>
            obtain ⟨evs1, pend⟩ := p
            rw [hs] at h
            cases pend with
            | none =>
              cases hg : getoptArgs rest with
              | none => rw [hg] at h; exact Option.noConfusion h
              | some q =>
                obtain ⟨evs2, pos2⟩ := q
                rw [hg] at h
                obtain ⟨rfl, rfl⟩ := Prod.mk.injEq .. ▸ Option.some_inj.mp h
                rcases List.mem_append.mp he with h1 | h2
                · exact (scanCluster_known _ _ _ hs).1 e h1
                · exact ihn rest hr evs2 pos2 hg e h2
            | some c =>
              dsimp only at h
              cases rest with
              | nil => exact Option.noConfusion h
              | cons a rest2 =>
                dsimp only at h
                have hr2 : rest2.length ≤ n := by
                  simp only [List.length_cons] at hn
                  omega
                cases hg : getoptArgs rest2 with
                | none => rw [hg] at h; exact Option.noConfusion h
                | some q =>
                  obtain ⟨evs2, pos2⟩ := q
                  rw [hg] at h
                  obtain ⟨rfl, rfl⟩ := Prod.mk.injEq .. ▸ Option.some_inj.mp h
                  rcases List.mem_append.mp he with h1 | h2
                  · exact (scanCluster_known _ _ _ hs).1 e h1
                  · rcases List.mem_cons.mp h2 with rfl | h3
                    · exact (scanCluster_known _ _ _ hs).2 c rfl
                    · exact ihn rest2 hr2 evs2 pos2 hg e h3
      · rw [if_neg hopt] at h
        obtain ⟨rfl, rfl⟩ := Prod.mk.injEq .. ▸ Option.some_inj.mp h
        simp at he

/-- The option switch can set `use_ktcmp` only in its `'z'` case, which
`getopt` with option string `"k:o:h"` never reaches. -/
theorem applyOpts_keeps_use_ktcmp_false : ∀ (evs : List (Char × Option (List Char))) (o : Opts),
    (∀ e ∈ evs, optKnown e.1 = true) → o.use_ktcmp = false →
    (applyOpts o evs).use_ktcmp = false := by
  intro evs
  induction evs with
  | nil => intro o _ ho; exact ho
  | cons e rest ih =>
    intro o hz ho
    obtain ⟨c, a⟩ := e
    have hke : optKnown c = true := hz (c, a) (List.mem_cons_self _ _)
    have hrest : ∀ e ∈ rest, optKnown e.1 = true :=
      fun e he => hz e (List.mem_cons_of_mem _ he)
    unfold applyOpts
    by_cases h1 : c = 'k'
    · rw [if_pos h1]; exact ih _ hrest ho
    · rw [if_neg h1]
      by_cases h2 : c = 'o'
      · rw [if_pos h2]; exact ih _ hrest ho
      · rw [if_neg h2]
        by_cases h3 : c = 'z'
        · exfalso
          rw [h3] at hke
          exact absurd hke (by decide)
        · rw [if_neg h3]
          by_cases h4 : c = 'h'
          · rw [if_pos h4]; exact ih _ hrest ho
          · rw [if_neg h4]; exact ho

/-- Whenever the configuration checks let `main` proceed, the options are
exactly those accumulated by the switch. -/
theorem cliPost_proceed_opts (o o2 : Opts) (pos : List (List Char)) (m1 m2 : List Char)
    (h : cliPost o pos = .proceed o2 m1 m2) : o2 = o := by
  unfold cliPost at h
  split at h
  · exact CliOutcome.noConfusion h
  · split at h
    · exact CliOutcome.noConfusion h
    · split at h
      · exact (CliOutcome.proceed.injEq .. ▸ h).1.symm
      · exact CliOutcome.noConfusion h

/-- C7 (code bug).  The usage text documents `-z` as selecting the
nucleotide-rank order A<C<T<G and `main` has a `case 'z'`, but the
`getopt` option string `"k:o:h"` (line 95) omits `z`: invoking the
program with `-z` makes `getopt` return `'?'` and the process exit 1, and
no accepted configuration ever turns `use_ktcmp` on, so every run that
proceeds to the merge compares keys with `strcmp`. -/
theorem C7_z_option_unreachable :
    cliStage [['-', 'z'], ['m'], ['n']] = .optError ∧
    (∀ argv o m1 m2, cliStage argv = .proceed o m1 m2 → o.use_ktcmp = false) := by
  refine ⟨by decide, ?_⟩
  intro argv o m1 m2 h
  unfold cliStage at h
  cases hga : getoptArgs argv with
  | none => rw [hga] at h; exact CliOutcome.noConfusion h
  | some p =>
    obtain ⟨evs, pos⟩ := p
    rw [hga] at h
    have ho : o = applyOpts ⟨31, none, false, false⟩ evs :=
      cliPost_proceed_opts _ o pos m1 m2 h
    rw [ho]
    exact applyOpts_keeps_use_ktcmp_false evs ⟨31, none, false, false⟩
      (getoptArgs_known argv.length argv (le_refl _) evs pos hga) rfl

/-- Witness for `C7_z_option_unreachable` at the accepted invocation
`-k 3 a b`. -/
theorem C7_z_option_unreachable_witness :
    cliStage [['-', 'k'], ['3'], ['a'], ['b']] =
      .proceed ⟨3, none, false, false⟩ ['a'] ['b'] ∧
    (⟨3, none, false, false⟩ : Opts).use_ktcmp = false :=
  ⟨by decide, C7_z_option_unreachable.2 [['-', 'k'], ['3'], ['a'], ['b']]
    ⟨3, none, false, false⟩ ['a'] ['b'] (by decide)⟩

/-! ### Claim C8 -/

/-- `cliPost` reports `badK` only for a non-positive parsed key length. -/
theorem cliPost_badK_le (o : Opts) (pos : List (List Char)) (k : Int)
    (h : cliPost o pos = .badK k) : k ≤ 0 := by
  unfold cliPost at h
  by_cases hk : o.ksize ≤ 0
  · rw [if_pos hk] at h
    have hek : o.ksize = k := (CliOutcome.badK.injEq .. ▸ h)
    rw [hek] at hk
    exact hk
  · rw [if_neg hk] at h
    split at h
    · exact CliOutcome.noConfusion h
    · split at h
      · exact CliOutcome.noConfusion h
      · exact CliOutcome.noConfusion h

/-- C8 as frozen is false: a missing-positional-arguments invocation is
caught before any file is opened and produces no output rows, but `main`
prints the usage text and returns 0 (lines 121-131), not a non-zero
status.  Shown with zero and with three positional arguments. -/
theorem C8_counterexample_usage_exits_zero :
    cliStage [] = CliOutcome.usage ∧
    km_diff_main [] ["AAA 1\n".data] ["CCC 2\n".data] = (0, []) ∧
    cliStage [['a'], ['b'], ['c']] = CliOutcome.usage ∧
    km_diff_main [['a'], ['b'], ['c']] [] [] = (0, []) := by
  refine ⟨by decide, by decide, by decide, by decide⟩

/-- C8 (corrected).  Every configuration error is caught before any input
file is opened (the result does not depend on the file contents) and
produces no output rows; an invalid key length (`k ≤ 0`) and a `getopt`
error exit with status 1, while a wrong number of positional arguments
prints the usage text and exits with status 0. -/
theorem C8_config_errors_precede_io (argv : List (List Char)) (f1 f2 : List (List Char)) :
    (∀ k, cliStage argv = .badK k → k ≤ 0 ∧ km_diff_main argv f1 f2 = (1, [])) ∧
    (cliStage argv = .usage → km_diff_main argv f1 f2 = (0, [])) ∧
    (cliStage argv = .optError → km_diff_main argv f1 f2 = (1, [])) := by
  refine ⟨?_, ?_, ?_⟩
  · intro k h
    refine ⟨?_, by simp only [km_diff_main, h]⟩
    unfold cliStage at h
    cases hga : getoptArgs argv with
    | none => rw [hga] at h; exact CliOutcome.noConfusion h
    | some p =>
      obtain ⟨evs, pos⟩ := p
      rw [hga] at h
      exact cliPost_badK_le _ pos k h
  · intro h
    simp only [km_diff_main, h]
  · intro h
    simp only [km_diff_main, h]

/-- Witness for `C8_config_errors_precede_io`: `-k 0 a b` is a fatal
key-length error with exit 1, a single positional argument gives the
usage outcome with exit 0; neither produces output rows. -/
theorem C8_config_errors_precede_io_witness :
    cliStage [['-', 'k'], ['0'], ['a'], ['b']] = CliOutcome.badK 0 ∧
    ((0 : Int) ≤ 0 ∧
      km_diff_main [['-', 'k'], ['0'], ['a'], ['b']] [] [] = (1, [])) ∧
    cliStage [['a']] = CliOutcome.usage ∧
    km_diff_main [['a']] [] [] = (0, []) :=
  ⟨by decide,
    (C8_config_errors_precede_io [['-', 'k'], ['0'], ['a'], ['b']] [] []).1 0 (by decide),
    by decide,
    (C8_config_errors_precede_io [['a']] [] []).2.1 (by decide)⟩

/-! ### Claim C9 -/

/-- C9 as frozen is false in one respect: a malformed row that is shorter
than K characters ends the stream *silently* — the reader takes the
`getline < ksize` exit (line 46), which prints nothing, whereas the
claimed diagnostic (`[warning] input does not seem valid`, reflected by
`ReadResult.warn`) is only printed on an invalid character. -/
theorem C9_counterexample_short_line_is_silent :
    next_kmer_and_line 3 "A\n".data = ReadResult.eof ∧
    ReadResult.eof ≠ ReadResult.warn := by
  exact ⟨by decide, by decide⟩

/-- C9 (corrected).  A malformed row is non-fatal: it terminates reading
of its own stream only (all rows before it are still delivered, everything
from it on is dropped), every run that proceeds past configuration exits
with status 0, and the diagnostic is written in the invalid-character
case (short lines end the stream without one). -/
theorem C9_malformed_row_truncates_stream_only :
    (∀ (ksize : Nat) (pre : List (List Char)) (bad : List Char) (post : List (List Char)),
      (∀ k l, next_kmer_and_line ksize bad ≠ .ok k l) →
      streamRecords ksize (pre ++ bad :: post) = streamRecords ksize pre) ∧
    (∀ argv o m1 m2 (f1 f2 : List (List Char)), cliStage argv = .proceed o m1 m2 →
      (km_diff_main argv f1 f2).1 = 0) ∧
    (∀ (ksize : Nat) (raw : List Char), ¬ raw.length < ksize →
      ¬ ((raw.take ksize).all (fun c => isnuc c.toNat == 1) = true) →
      next_kmer_and_line ksize raw = .warn) := by
  refine ⟨?_, ?_, ?_⟩
  · intro ksize pre bad post hbad
    induction pre with
    | nil =>
      show streamRecords ksize (bad :: post) = []
      unfold streamRecords
      cases hb : next_kmer_and_line ksize bad with
      | ok k l => exact absurd hb (hbad k l)
      | eof => rfl
      | warn => rfl
    | cons l pre ih =>
      show streamRecords ksize (l :: (pre ++ bad :: post)) = streamRecords ksize (l :: pre)
      unfold streamRecords
      cases hl : next_kmer_and_line ksize l with
      | ok k s => rw [ih]
      | eof => rfl
      | warn => rfl
  · intro argv o m1 m2 f1 f2 h
    simp only [km_diff_main, h]
  · intro ksize raw hlen hall
    unfold next_kmer_and_line
    rw [if_neg hlen, if_neg hall]

/-- Witness for `C9_malformed_row_truncates_stream_only`: the
left stream "AAA 1", "AXA 2", "CCC 3" is truncated after its first row by
the invalid character 'X', the run proceeds under `-k 3 a b` and exits 0,
and the invalid-character line produces the warning signal. -/
theorem C9_malformed_row_truncates_stream_only_witness :
    (∀ k l, next_kmer_and_line 3 "AXA 2\n".data ≠ ReadResult.ok k l) ∧
    streamRecords 3 (["AAA 1\n".data] ++ "AXA 2\n".data :: ["CCC 3\n".data]) =
      streamRecords 3 ["AAA 1\n".data] ∧
    cliStage [['-', 'k'], ['3'], ['a'], ['b']] =
      CliOutcome.proceed ⟨3, none, false, false⟩ ['a'] ['b'] ∧
    (km_diff_main [['-', 'k'], ['3'], ['a'], ['b']]
      ["AAA 1\n".data, "AXA 2\n".data, "CCC 3\n".data] ["CCC 9\n".data]).1 = 0 ∧
    next_kmer_and_line 3 "AXA 2\n".data = ReadResult.warn := by
  have hbad : ∀ k l, next_kmer_and_line 3 "AXA 2\n".data ≠ ReadResult.ok k l := by
    intro k l h
    rw [(by decide : next_kmer_and_line 3 "AXA 2\n".data = ReadResult.warn)] at h
    exact ReadResult.noConfusion h
  refine ⟨hbad,
    C9_malformed_row_truncates_stream_only.1 3 ["AAA 1\n".data] "AXA 2\n".data
      ["CCC 3\n".data] hbad,
    by decide,
    C9_malformed_row_truncates_stream_only.2.1 [['-', 'k'], ['3'], ['a'], ['b']]
      ⟨3, none, false, false⟩ ['a'] ['b'] _ _ (by decide),
    C9_malformed_row_truncates_stream_only.2.2 3 "AXA 2\n".data (by decide) (by decide)⟩

/-! ### Claim C10 -/

/-- Dropping while a predicate holds of every element of a prefix skips
that whole prefix. -/
theorem dropWhile_append_of_all (p : Char → Bool) : ∀ (l1 l2 : List Char),
    (∀ c ∈ l1, p c = true) → List.dropWhile p (l1 ++ l2) = List.dropWhile p l2 := by
  intro l1 l2 h
  induction l1 with
  | nil => rfl
  | cons c cs ih =>
    rw [List.cons_append, List.dropWhile_cons, if_pos (h c (List.mem_cons_self c cs))]
    exact ih (fun d hd => h d (List.mem_cons_of_mem c hd))

/-- C10 (confirmed).  For a line consisting of a separator-free key, a
non-empty run of spaces/tabs, and a remainder not starting with a
separator: `first_column` drops the whole separator run, so a drain-phase
row joins key and remainder with exactly one space — even with zero pad
columns this differs textually from the source line whenever the original
run was not a single space — whereas a MERGING-phase row reproduces the
line verbatim (plus the terminating newline). -/
theorem C10_drain_rewrites_separator (k ws rest : List Char) (pad : Nat)
    (hk : ∀ c ∈ k, ¬(c = ' ' ∨ c = '\t'))
    (hws0 : ws ≠ [])
    (hws : ∀ c ∈ ws, c = ' ' ∨ c = '\t')
    (hrest : ∀ c ∈ rest.take 1, ¬(c = ' ' ∨ c = '\t')) :
    first_column (k ++ ws ++ rest) = rest ∧
    render (Event.emitDrain k (k ++ ws ++ rest) pad) =
      k ++ [' '] ++ rest ++ (List.replicate pad [' ', '0']).flatten ++ ['\n'] ∧
    (ws ≠ [' '] →
      render (Event.emitDrain k (k ++ ws ++ rest) 0) ≠
        render (Event.emitMerge k (k ++ ws ++ rest))) ∧
    render (Event.emitMerge k (k ++ ws ++ rest)) = (k ++ ws ++ rest) ++ ['\n'] := by
  have hfc : first_column (k ++ ws ++ rest) = rest := by
    unfold first_column
    rw [List.append_assoc]
    rw [dropWhile_append_of_all _ k (ws ++ rest) (by
      intro c hc
      simp only [Bool.not_eq_true', Bool.or_eq_false_iff, decide_eq_false_iff_not]
      exact ⟨fun h => hk c hc (Or.inl h), fun h => hk c hc (Or.inr h)⟩)]
    cases ws with
    | nil => exact absurd rfl hws0
    | cons w ws2 =>
      have hw : (w = ' ' || w = '\t') = true := by
        rcases hws w (List.mem_cons_self w ws2) with h | h <;> simp [h]
      rw [List.cons_append, List.dropWhile_cons, if_neg (by simp [hw])]
      rw [List.dropWhile_cons, if_pos hw]
      rw [dropWhile_append_of_all _ ws2 rest (by
        intro c hc
        rcases hws c (List.mem_cons_of_mem w hc) with h | h <;> simp [h])]
      cases rest with
      | nil => rfl
      | cons r rs =>
        rw [List.dropWhile_cons, if_neg (by
          have hr := hrest r (by simp)
          simp only [Bool.or_eq_true, decide_eq_true_eq]
          exact hr)]
  refine ⟨hfc, ?_, ?_, rfl⟩
  · show k ++ [' '] ++ first_column (k ++ ws ++ rest) ++ _ ++ ['\n'] = _
    rw [hfc]
  · intro hne heq
    have h1 : render (Event.emitDrain k (k ++ ws ++ rest) 0) =
        k ++ ([' '] ++ (rest ++ ['\n'])) := by
      show k ++ [' '] ++ first_column (k ++ ws ++ rest) ++ _ ++ ['\n'] = _
      rw [hfc]
      simp [List.append_assoc]
    have h2 : render (Event.emitMerge k (k ++ ws ++ rest)) =
        k ++ (ws ++ (rest ++ ['\n'])) := by
      show (k ++ ws ++ rest) ++ ['\n'] = _
      simp [List.append_assoc]
    rw [h1, h2] at heq
    have h3 : [' '] ++ (rest ++ ['\n']) = ws ++ (rest ++ ['\n']) :=
      List.append_cancel_left heq
    have h4 : ([' '] : List Char) = ws := List.append_cancel_right h3
    exact hne h4.symm

/-- Witness for `C10_drain_rewrites_separator` on the tab-separated line
"AAA\t\t1 2" with no pad columns. -/
theorem C10_drain_rewrites_separator_witness :
    (∀ c ∈ "AAA".data, ¬(c = ' ' ∨ c = '\t')) ∧
    (['\t', '\t'] : List Char) ≠ [] ∧
    (∀ c ∈ (['\t', '\t'] : List Char), c = ' ' ∨ c = '\t') ∧
    (∀ c ∈ "1 2".data.take 1, ¬(c = ' ' ∨ c = '\t')) ∧
    (first_column ("AAA".data ++ ['\t', '\t'] ++ "1 2".data) = "1 2".data ∧
    render (Event.emitDrain "AAA".data ("AAA".data ++ ['\t', '\t'] ++ "1 2".data) 0) =
      "AAA".data ++ [' '] ++ "1 2".data ++ (List.replicate 0 [' ', '0']).flatten ++ ['\n'] ∧
    ((['\t', '\t'] : List Char) ≠ [' '] →
      render (Event.emitDrain "AAA".data ("AAA".data ++ ['\t', '\t'] ++ "1 2".data) 0) ≠
        render (Event.emitMerge "AAA".data ("AAA".data ++ ['\t', '\t'] ++ "1 2".data))) ∧
    render (Event.emitMerge "AAA".data ("AAA".data ++ ['\t', '\t'] ++ "1 2".data)) =
      ("AAA".data ++ ['\t', '\t'] ++ "1 2".data) ++ ['\n']) :=
  ⟨by decide, by decide, by decide, by decide,
    C10_drain_rewrites_separator "AAA".data ['\t', '\t'] "1 2".data 0
      (by decide) (by decide) (by decide) (by decide)⟩
